import Mathlib

set_option maxHeartbeats 1000000

/-!
Verification of the mcp-registry storage layer: a shallow embedding of
`internal/models/server.go` and `internal/storage/memory.go` (the in-memory
`MemoryStore` variant of the storage contract), together with the seed
loader's `extractAuthorFromRepoURL` helper.

Go strings are modelled as Lean `String`; byte-level operations
(`strings.Contains`, `strings.Split`, `strings.ToLower`) are modelled on the
character list of the string (`strings.ToLower` at ASCII granularity, which
is what every string occurring in this development uses). The Go map
`map[string]models.Server` is modelled as a `List Server` whose keys are the
records' `ID` fields; map assignment `m[k] = v` (with `k = v.ID` at every
call site) is replace-or-append, `delete(m, k)` removes every entry with key
`k`, and map lookup is `List.find?`. Mutating methods on `*MemoryStore`
return the updated store next to the Go return value.
-/

/-- Models `models.Server` (internal/models/server.go): one registry record. -/
structure Server where
  ID : String
  Name : String
  Description : String
  Version : String
  Repository : String
  Author : String
  Tags : List String
  IsActive : Bool
  CreatedAt : String
  deriving Repr, DecidableEq

/-- Models `models.ValidationError`: one field violation. -/
structure ValidationError where
  Field : String
  Message : String
  deriving Repr, DecidableEq

/-- Models `(*ValidationError).Error()`: renders as `<field>: <message>`. -/
def ValidationError.render (e : ValidationError) : String :=
  e.Field ++ ": " ++ e.Message

/-- Models the loop body of `ValidationErrors.Error`: the violations joined
with `", "` (empty string for the empty list). -/
def joinRendered : List ValidationError → String
  | [] => ""
  | [e] => e.render
  | e :: rest => e.render ++ ", " ++ joinRendered rest

/-- Models `ValidationErrors.Error` (internal/models/server.go, lines 52-65). -/
def ValidationErrors.error (ve : List ValidationError) : String :=
  if ve = [] then "no validation errors"
  else "validation failed: " ++ joinRendered ve

/-- Models `models.ValidateServer` (internal/models/server.go, lines 68-97):
appends one violation per empty required field, in the order id, name,
version; returns `none` when no field is violated. -/
def ValidateServer (server : Server) : Option (List ValidationError) :=
  let e1 : List ValidationError :=
    if server.ID = "" then [⟨"id", "is required"⟩] else []
  let e2 : List ValidationError :=
    if server.Name = "" then e1 ++ [⟨"name", "is required"⟩] else e1
  let e3 : List ValidationError :=
    if server.Version = "" then e2 ++ [⟨"version", "is required"⟩] else e2
  if e3.length > 0 then some e3 else none

/-- The rendered violations of a record, in the fixed field order
id, name, version. Stated from the spec's description of the
aggregated message; compared against `ValidateServer`'s output. -/
def requiredViolations (s : Server) : List String :=
  (if s.ID = "" then ["id: is required"] else [])
    ++ (if s.Name = "" then ["name: is required"] else [])
    ++ (if s.Version = "" then ["version: is required"] else [])

/-- C6: for every record, `ValidateServer` collects all violated fields among
id, name, version into one aggregate; it returns ok exactly when all three
required fields are non-empty; a returned aggregate is non-empty, its
entries rendered in the fixed order id, name, version, and
`ValidationErrors.error` renders it as `"validation failed: "` followed by
the violations joined with `", "`; the empty aggregate renders as
`"no validation errors"`. -/
theorem validateServer_spec (s : Server) :
    (ValidateServer s = none ↔ (s.ID ≠ "" ∧ s.Name ≠ "" ∧ s.Version ≠ "")) ∧
    (∀ es, ValidateServer s = some es →
      es ≠ [] ∧
      es.map ValidationError.render = requiredViolations s ∧
      ValidationErrors.error es =
        "validation failed: " ++ String.intercalate ", " (requiredViolations s)) ∧
    ValidationErrors.error [] = "no validation errors" := by
  refine ⟨?_, ?_, rfl⟩
  · by_cases hI : s.ID = "" <;> by_cases hN : s.Name = "" <;>
      by_cases hV : s.Version = "" <;>
        simp [ValidateServer, hI, hN, hV]
  · intro es hes
    by_cases hI : s.ID = "" <;> by_cases hN : s.Name = "" <;>
      by_cases hV : s.Version = "" <;>
        simp [ValidateServer, hI, hN, hV] at hes <;>
        simp only [requiredViolations, hI, hN, hV, if_true, if_false,
          List.nil_append, List.append_nil] <;>
        subst hes <;>
        exact ⟨by simp, rfl, rfl⟩

/-- Witness for C6 at a record with all three required fields empty. -/
theorem validateServer_spec_witness :
    ValidationErrors.error
        [⟨"id", "is required"⟩, ⟨"name", "is required"⟩, ⟨"version", "is required"⟩] =
      "validation failed: id: is required, name: is required, version: is required" := by
  have h := (validateServer_spec ⟨"", "", "d", "", "r", "a", [], true, "t"⟩).2.1
    [⟨"id", "is required"⟩, ⟨"name", "is required"⟩, ⟨"version", "is required"⟩] rfl
  exact h.2.2

/-- Models the error values of internal/storage/memory.go: `ErrServerNotFound`,
`ErrServerExists`, `ErrInvalidID`, plus the `ValidationErrors` value returned
through `Create`/`Update` when validation fails. -/
inductive StoreError where
  | errServerNotFound
  | errServerExists
  | errInvalidID
  | validationFailed (es : List ValidationError)
  deriving Repr, DecidableEq

/-- Models `strings.ToLower` at ASCII granularity (every string in this
development is ASCII): lowercases each character. -/
def lowerStr (s : String) : String := String.mk (s.toList.map Char.toLower)

/-- Helper for substring search: `isPrefB pat l` is true when `pat` is an
initial segment of `l`. -/
def isPrefB : List Char → List Char → Bool
  | [], _ => true
  | _ :: _, [] => false
  | p :: ps, c :: cs => p == c && isPrefB ps cs

/-- Helper for substring search: `subListB pat l` is true when `pat` occurs
contiguously inside `l`. -/
def subListB : List Char → List Char → Bool
  | pat, [] => pat.isEmpty
  | pat, c :: cs => isPrefB pat (c :: cs) || subListB pat cs

/-- Models `strings.Contains(s, sub)`: `sub` occurs as a substring of `s`
(character-level, equivalent to Go's byte-level containment on UTF-8). -/
def strContains (s sub : String) : Bool := subListB sub.toList s.toList

/-- The in-memory store's record set: models `map[string]models.Server`
keyed by each record's `ID` (every Go write uses key `server.ID`). -/
abbrev Store := List Server

namespace MemoryStore

/-- Models the map read `m.servers[id]`: the entry whose key is `id`. -/
def getServer? (m : Store) (id : String) : Option Server :=
  m.find? (fun r => r.ID == id)

/-- Models the map write `m.servers[server.ID] = server`: replaces the entry
with that key, or appends when the key is absent. -/
def setServer (m : Store) (server : Server) : Store :=
  if (getServer? m server.ID).isSome then
    m.map (fun r => if r.ID == server.ID then server else r)
  else
    m ++ [server]

/-- Models `MemoryStore.GetAll` (memory.go, lines 33-44): every record and a
nil error. -/
def GetAll (m : Store) : List Server × Option StoreError := (m, none)

/-- Models `MemoryStore.GetByID` (memory.go, lines 47-63): `ErrInvalidID` on
the empty id, `ErrServerNotFound` when absent, otherwise a copy of the
record. -/
def GetByID (m : Store) (id : String) : Except StoreError Server :=
  if id = "" then .error .errInvalidID
  else
    match getServer? m id with
    | none => .error .errServerNotFound
    | some server => .ok server

/-- Models `MemoryStore.Create` (memory.go, lines 66-88): validate first,
then the existence check, then assign `CreatedAt` (from the clock reading
`now`, which models `time.Now().Format(time.RFC3339)`) when absent, then
store. Returns the updated store next to the Go error value. -/
def Create (m : Store) (server : Server) (now : String) : Store × Option StoreError :=
  match ValidateServer server with
  | some es => (m, some (.validationFailed es))
  | none =>
    match getServer? m server.ID with
    | some _ => (m, some .errServerExists)
    | none =>
      let server := if server.CreatedAt = "" then { server with CreatedAt := now } else server
      (setServer m server, none)

/-- Models `MemoryStore.Update` (memory.go, lines 91-111): validate first,
`ErrServerNotFound` when the id is absent, otherwise store the caller's
record with `CreatedAt` taken from the existing record. -/
def Update (m : Store) (server : Server) : Store × Option StoreError :=
  match ValidateServer server with
  | some es => (m, some (.validationFailed es))
  | none =>
    match getServer? m server.ID with
    | none => (m, some .errServerNotFound)
    | some existing =>
      let server := { server with CreatedAt := existing.CreatedAt }
      (setServer m server, none)

/-- Models `MemoryStore.Delete` (memory.go, lines 114-129): `ErrInvalidID` on
the empty id, `ErrServerNotFound` when absent, otherwise removes the entry
(`delete(m.servers, id)`). -/
def Delete (m : Store) (id : String) : Store × Option StoreError :=
  if id = "" then (m, some .errInvalidID)
  else
    match getServer? m id with
    | none => (m, some .errServerNotFound)
    | some _ => (m.filter (fun r => !(r.ID == id)), none)

/-- Models `MemoryStore.Search` (memory.go, lines 131-149): the empty query
returns the empty slice; otherwise the records whose lowercased name
contains the lowercased query. -/
def Search (m : Store) (nameQuery : String) : List Server × Option StoreError :=
  if nameQuery = "" then ([], none)
  else
    let queryLower := lowerStr nameQuery
    (m.filter (fun server => strContains (lowerStr server.Name) queryLower), none)

/-- Models `MemoryStore.Count` (memory.go, lines 152-164): the number of
records, the number of active records (counted by the Go range loop), and a
nil error. -/
def Count (m : Store) : Nat × Nat × Option StoreError :=
  (m.length, m.foldl (fun acc server => if server.IsActive then acc + 1 else acc) 0, none)

end MemoryStore

/-- Sample record shaped like the spec's test data (name "filesystem-server"). -/
def srvFs : Server :=
  ⟨"1", "filesystem-server", "A server for accessing local filesystem", "1.0.0",
   "https://github.com/example/filesystem-server", "Jane Doe",
   ["filesystem", "local", "files"], true, "2024-01-01T00:00:00Z"⟩

/-- Sample record named "web-server". -/
def srvWeb : Server :=
  ⟨"2", "web-server", "", "2.1.0", "", "", [], true, "2024-01-02T00:00:00Z"⟩

/-- Sample record named "database-server", inactive. -/
def srvDb : Server :=
  ⟨"3", "database-server", "", "1.5.2", "", "", [], false, "2024-01-03T00:00:00Z"⟩

/-- Sample record named "file-processor". -/
def srvFp : Server :=
  ⟨"4", "file-processor", "", "0.1.0", "", "", [], true, "2024-01-04T00:00:00Z"⟩

/-- The four-record store of the spec's Search example. -/
def searchSample : Store := [srvFs, srvWeb, srvDb, srvFp]

namespace MemoryStore

/-- Replacing the entry keyed `r.ID` makes the lookup of `r.ID` yield `r`,
provided some entry with that key was present. -/
theorem find?_map_replace (m : Store) (r : Server)
    (hex : ∃ x ∈ m, (x.ID == r.ID) = true) :
    (m.map (fun y => if y.ID == r.ID then r else y)).find? (fun y => y.ID == r.ID)
      = some r := by
  obtain ⟨x, hx, hxid⟩ := hex
  induction m with
  | nil => cases hx
  | cons a as ih =>
    by_cases ha : (a.ID == r.ID) = true
    · rw [List.map_cons, if_pos ha, List.find?_cons_of_pos]
      simp
    · rw [List.map_cons, if_neg ha, List.find?_cons_of_neg]
      · rcases List.mem_cons.mp hx with hxa | hxas
        · exact absurd (hxa ▸ hxid) ha
        · exact ih hxas
      · simpa using ha

/-- After the map write `setServer m r`, looking up `r.ID` yields `r`. -/
theorem getServer?_setServer (m : Store) (r : Server) :
    getServer? (setServer m r) r.ID = some r := by
  unfold setServer getServer?
  split
  next h =>
    apply find?_map_replace
    rw [List.find?_isSome] at h
    simpa using h
  next h =>
    rw [List.find?_append]
    rcases ho : List.find? (fun y => y.ID == r.ID) m with _ | v
    · rw [ho]
      simp
    · exact absurd (by rw [ho]; rfl) h

/-- Every record of `setServer m r` is a record of `m` or is `r` itself. -/
theorem mem_setServer (m : Store) (r x : Server) (hx : x ∈ setServer m r) :
    x ∈ m ∨ x = r := by
  unfold setServer at hx
  split at hx
  · rcases List.mem_map.mp hx with ⟨y, hy, hyx⟩
    by_cases hid : (y.ID == r.ID) = true
    · rw [if_pos hid] at hyx
      right; exact hyx.symm
    · rw [if_neg hid] at hyx
      left; exact hyx ▸ hy
  · rcases List.mem_append.mp hx with hxm | hxr
    · left; exact hxm
    · right; exact List.mem_singleton.mp hxr

end MemoryStore

/-- C5: for the ID-keyed operations `GetByID` and `Delete`: the empty id fails
with `ErrInvalidID`; a non-empty id that is absent fails with
`ErrServerNotFound`; a successful `Delete id` removes the record, so a
subsequent `GetByID id` fails with `ErrServerNotFound`. -/
theorem idKeyed_error_spec (m : Store) (id : String) :
    MemoryStore.GetByID m "" = .error .errInvalidID ∧
    MemoryStore.Delete m "" = (m, some .errInvalidID) ∧
    (id ≠ "" → MemoryStore.getServer? m id = none →
      MemoryStore.GetByID m id = .error .errServerNotFound ∧
      MemoryStore.Delete m id = (m, some .errServerNotFound)) ∧
    (id ≠ "" → (MemoryStore.getServer? m id).isSome →
      (MemoryStore.Delete m id).2 = none ∧
      MemoryStore.GetByID (MemoryStore.Delete m id).1 id = .error .errServerNotFound) := by
  refine ⟨rfl, rfl, ?_, ?_⟩
  · intro hne habs
    constructor <;> simp [MemoryStore.GetByID, MemoryStore.Delete, hne, habs]
  · intro hne hsome
    rcases ho : MemoryStore.getServer? m id with _ | r
    · rw [ho] at hsome; simp at hsome
    · have hdel : MemoryStore.Delete m id = (m.filter (fun r => !(r.ID == id)), none) := by
        unfold MemoryStore.Delete
        rw [if_neg hne, ho]
      rw [hdel]
      refine ⟨rfl, ?_⟩
      have habs : MemoryStore.getServer? (m.filter (fun r => !(r.ID == id))) id = none := by
        unfold MemoryStore.getServer?
        rw [List.find?_eq_none]
        intro x hx
        have h2 := (List.mem_filter.mp hx).2
        simp only [Bool.not_eq_true'] at h2
        simp [h2]
      unfold MemoryStore.GetByID
      rw [if_neg hne, habs]

/-- Witness for C5: deleting id "1" from the one-record store `[srvFs]`
succeeds, and the subsequent lookup fails with `ErrServerNotFound`. -/
theorem idKeyed_error_spec_witness :
    (MemoryStore.Delete [srvFs] "1").2 = none ∧
    MemoryStore.GetByID (MemoryStore.Delete [srvFs] "1").1 "1" =
      .error .errServerNotFound := by
  exact (idKeyed_error_spec [srvFs] "1").2.2.2 (by decide) (by decide)

/-- The active-count loop of `Count` computes the number of active records. -/
theorem countActive_foldl (m : Store) (acc : Nat) :
    m.foldl (fun acc server => if server.IsActive then acc + 1 else acc) acc
      = acc + (m.filter (fun r => r.IsActive)).length := by
  induction m generalizing acc with
  | nil => simp
  | cons a as ih =>
    by_cases ha : a.IsActive <;> (simp [List.foldl, ha, ih]; try omega)

/-- C8: `Count` returns the pair (total, active) where total is the number of
records and active the number of records with `IsActive = true`, plus a nil
error; over zero records it returns (0,0); after creating one active and one
inactive record it returns (2,1). -/
theorem count_spec (m : Store) :
    MemoryStore.Count m = (m.length, (m.filter (fun r => r.IsActive)).length, none) ∧
    MemoryStore.Count ([] : Store) = (0, 0, none) ∧
    MemoryStore.Count
        (MemoryStore.Create (MemoryStore.Create [] srvFs "t").1 srvDb "t").1 =
      (2, 1, none) := by
  refine ⟨?_, rfl, by decide⟩
  unfold MemoryStore.Count
  rw [countActive_foldl]
  simp

/-- The validator accepts exactly the records whose three required fields are
non-empty. -/
theorem validateServer_none_iff (s : Server) :
    ValidateServer s = none ↔ (s.ID ≠ "" ∧ s.Name ≠ "" ∧ s.Version ≠ "") := by
  by_cases hI : s.ID = "" <;> by_cases hN : s.Name = "" <;>
    by_cases hV : s.Version = "" <;>
      simp [ValidateServer, hI, hN, hV]

/-- Reduction of `Create` on a valid record whose id is absent: the record is
stored (with `CreatedAt` defaulted from the clock when empty) and the error
is nil. -/
theorem create_absent (m : Store) (r : Server) (now : String)
    (hval : ValidateServer r = none) (habs : MemoryStore.getServer? m r.ID = none) :
    MemoryStore.Create m r now =
      (MemoryStore.setServer m
        (if r.CreatedAt = "" then { r with CreatedAt := now } else r), none) := by
  unfold MemoryStore.Create
  rw [hval, habs]

/-- C1: for every valid record `r` (non-empty id, name, version) whose id is
absent from the store, `Create` succeeds, and a subsequent `GetByID r.ID`
returns a record equal to `r` in every field except `CreatedAt`, which is
non-empty, and equals `r.CreatedAt` whenever `r` supplied a non-empty one
(the clock reading `now` models `time.Now().Format(time.RFC3339)`, which is
never empty). -/
theorem create_getByID_roundtrip (m : Store) (r : Server) (now : String)
    (hid : r.ID ≠ "") (hname : r.Name ≠ "") (hver : r.Version ≠ "")
    (habs : MemoryStore.getServer? m r.ID = none) (hnow : now ≠ "") :
    (MemoryStore.Create m r now).2 = none ∧
    ∃ stored, MemoryStore.GetByID (MemoryStore.Create m r now).1 r.ID = .ok stored ∧
      { stored with CreatedAt := r.CreatedAt } = r ∧
      stored.CreatedAt ≠ "" ∧
      (r.CreatedAt ≠ "" → stored = r) := by
  have hval : ValidateServer r = none := (validateServer_none_iff r).mpr ⟨hid, hname, hver⟩
  have hstep := create_absent m r now hval habs
  by_cases hc : r.CreatedAt = ""
  · rw [if_pos hc] at hstep
    refine ⟨by rw [hstep], { r with CreatedAt := now }, ?_, rfl, hnow, ?_⟩
    · rw [hstep]
      unfold MemoryStore.GetByID
      rw [if_neg hid]
      rw [show MemoryStore.getServer?
            (MemoryStore.setServer m { r with CreatedAt := now }) r.ID =
          some { r with CreatedAt := now } from
        MemoryStore.getServer?_setServer m { r with CreatedAt := now }]
    · intro hrc; exact absurd hc hrc
  · rw [if_neg hc] at hstep
    refine ⟨by rw [hstep], r, ?_, rfl, hc, fun _ => rfl⟩
    rw [hstep]
    unfold MemoryStore.GetByID
    rw [if_neg hid]
    rw [show MemoryStore.getServer? (MemoryStore.setServer m r) r.ID = some r from
      MemoryStore.getServer?_setServer m r]

/-- A fresh record used to exercise `Create` with an empty `CreatedAt`. -/
def srvNew : Server := ⟨"9", "new-server", "", "1.0.0", "", "", [], true, ""⟩

/-- Witness for C1: creating `srvNew` in the empty store and reading it back. -/
theorem create_getByID_roundtrip_witness :
    (MemoryStore.Create [] srvNew "2024-06-01T00:00:00Z").2 = none ∧
    ∃ stored,
      MemoryStore.GetByID (MemoryStore.Create [] srvNew "2024-06-01T00:00:00Z").1
          srvNew.ID = .ok stored ∧
      { stored with CreatedAt := srvNew.CreatedAt } = srvNew ∧
      stored.CreatedAt ≠ "" ∧
      (srvNew.CreatedAt ≠ "" → stored = srvNew) :=
  create_getByID_roundtrip [] srvNew "2024-06-01T00:00:00Z"
    (by decide) (by decide) (by decide) rfl (by decide)

/-- Reduction of `Update` once the record has passed validation. -/
theorem update_reduce (m : Store) (r : Server) (hval : ValidateServer r = none) :
    MemoryStore.Update m r =
      match MemoryStore.getServer? m r.ID with
      | none => (m, some .errServerNotFound)
      | some existing =>
          (MemoryStore.setServer m { r with CreatedAt := existing.CreatedAt }, none) := by
  unfold MemoryStore.Update
  rw [hval]

/-- C3: for every valid record `r`, `Update` fails with `ErrServerNotFound`
when no record with id `r.ID` is present (store unchanged); when one is
present, the update succeeds and the stored record for `r.ID` has every
field taken from `r` except `CreatedAt`, which keeps the value the stored
record had before the update, regardless of what `r` carried. -/
theorem update_spec (m : Store) (r : Server)
    (hid : r.ID ≠ "") (hname : r.Name ≠ "") (hver : r.Version ≠ "") :
    (MemoryStore.getServer? m r.ID = none →
      MemoryStore.Update m r = (m, some .errServerNotFound)) ∧
    (∀ ex, MemoryStore.getServer? m r.ID = some ex →
      (MemoryStore.Update m r).2 = none ∧
      MemoryStore.GetByID (MemoryStore.Update m r).1 r.ID =
        .ok { r with CreatedAt := ex.CreatedAt }) := by
  have hval : ValidateServer r = none := (validateServer_none_iff r).mpr ⟨hid, hname, hver⟩
  constructor
  · intro habs
    rw [update_reduce m r hval, habs]
  · intro ex hex
    rw [update_reduce m r hval, hex]
    refine ⟨rfl, ?_⟩
    unfold MemoryStore.GetByID
    rw [if_neg hid]
    rw [show MemoryStore.getServer?
          (MemoryStore.setServer m { r with CreatedAt := ex.CreatedAt }) r.ID =
        some { r with CreatedAt := ex.CreatedAt } from
      MemoryStore.getServer?_setServer m { r with CreatedAt := ex.CreatedAt }]

/-- An update payload for id "1" carrying a different `CreatedAt`. -/
def srvUpd : Server :=
  ⟨"1", "filesystem-server-v2", "", "2.0.0", "", "", [], false, "1999-01-01T00:00:00Z"⟩

/-- Witness for C3: updating id "1" in `[srvFs]` keeps the old `CreatedAt`. -/
theorem update_spec_witness :
    (MemoryStore.Update [srvFs] srvUpd).2 = none ∧
    MemoryStore.GetByID (MemoryStore.Update [srvFs] srvUpd).1 srvUpd.ID =
      .ok { srvUpd with CreatedAt := srvFs.CreatedAt } :=
  (update_spec [srvFs] srvUpd (by decide) (by decide) (by decide)).2 srvFs rfl

/-- A sequence of `Create` calls, one after the other, against the same
store: models N callers invoking `Create` with the write lock serializing
them. Returns the final store and each call's error value, in order. -/
def createSeq (m : Store) (rs : List Server) (now : String) :
    Store × List (Option StoreError) :=
  match rs with
  | [] => (m, [])
  | r :: rest =>
    let p := MemoryStore.Create m r now
    let q := createSeq p.1 rest now
    (q.1, p.2 :: q.2)

/-- Reduction of `Create` on a valid record whose id is already present:
`ErrServerExists`, store unchanged. -/
theorem create_present (m : Store) (r : Server) (now : String)
    (hval : ValidateServer r = none) (hex : (MemoryStore.getServer? m r.ID).isSome) :
    MemoryStore.Create m r now = (m, some .errServerExists) := by
  unfold MemoryStore.Create
  rw [hval]
  rcases ho : MemoryStore.getServer? m r.ID with _ | v
  · rw [ho] at hex; simp at hex
  · rfl

/-- When the map write appends (key absent), `setServer` is an append. -/
theorem setServer_absent (m : Store) (v : Server)
    (habs : MemoryStore.getServer? m v.ID = none) :
    MemoryStore.setServer m v = m ++ [v] := by
  unfold MemoryStore.setServer
  rw [habs]
  rfl

/-- Once a record with id `i` is present, every further `Create` of a valid
record with id `i` fails with `ErrServerExists` and leaves the store
unchanged. -/
theorem createSeq_present (rest : List Server) (m : Store) (i now : String)
    (hall : ∀ x ∈ rest, ValidateServer x = none ∧ x.ID = i)
    (hex : (MemoryStore.getServer? m i).isSome) :
    createSeq m rest now = (m, rest.map (fun _ => some StoreError.errServerExists)) := by
  induction rest with
  | nil => rfl
  | cons a as ih =>
    have ha := hall a (List.mem_cons_self a as)
    have hfail : MemoryStore.Create m a now = (m, some .errServerExists) :=
      create_present m a now ha.1 (by rw [ha.2]; exact hex)
    have hih := ih (fun x hx => hall x (List.mem_cons_of_mem a hx))
    simp only [createSeq, hfail, hih, List.map_cons]

/-- C2: `Create` runs the validator before the existence check, failing with
the validation aggregate on an invalid record whatever the store holds; on a
valid record whose id is present it fails with `ErrServerExists` leaving the
store unchanged; and of any sequence of `Create` calls of valid records
sharing one fresh id, exactly the first succeeds, the rest fail with
`ErrServerExists`, and the final store holds exactly one record with that
id. -/
theorem create_spec :
    (∀ m r now es, ValidateServer r = some es →
      MemoryStore.Create m r now = (m, some (.validationFailed es))) ∧
    (∀ m r now, ValidateServer r = none → (MemoryStore.getServer? m r.ID).isSome →
      MemoryStore.Create m r now = (m, some .errServerExists)) ∧
    (∀ m now i r rest, (∀ x ∈ r :: rest, ValidateServer x = none ∧ x.ID = i) →
      MemoryStore.getServer? m i = none →
      (createSeq m (r :: rest) now).2 =
        none :: rest.map (fun _ => some StoreError.errServerExists) ∧
      (createSeq m (r :: rest) now).2.countP (fun e => e.isNone) = 1 ∧
      ((createSeq m (r :: rest) now).1.filter (fun x => x.ID == i)).length = 1) := by
  refine ⟨?_, ?_, ?_⟩
  · intro m r now es hval
    unfold MemoryStore.Create
    rw [hval]
  · intro m r now hval hex
    exact create_present m r now hval hex
  · intro m now i r rest hall habs
    have hr := hall r (List.mem_cons_self r rest)
    have habsr : MemoryStore.getServer? m r.ID = none := by rw [hr.2]; exact habs
    have hcr := create_absent m r now hr.1 habsr
    set r' := if r.CreatedAt = "" then { r with CreatedAt := now } else r with hr'
    have hr'id : r'.ID = i := by
      rw [hr']
      by_cases hc : r.CreatedAt = "" <;> simp [hc, hr.2]
    have habsr' : MemoryStore.getServer? m r'.ID = none := by rw [hr'id]; exact habs
    have happ : MemoryStore.setServer m r' = m ++ [r'] := setServer_absent m r' habsr'
    have hex' : (MemoryStore.getServer? (m ++ [r']) i).isSome = true := by
      unfold MemoryStore.getServer?
      rw [List.find?_append]
      have h1 : List.find? (fun x => x.ID == i) m = none := by
        unfold MemoryStore.getServer? at habs
        exact habs
      rw [h1]
      simp [hr'id]
    have hseq := createSeq_present rest (m ++ [r']) i now
      (fun x hx => hall x (List.mem_cons_of_mem r hx)) hex'
    have hstep : createSeq m (r :: rest) now =
        ((m ++ [r'], none :: rest.map (fun _ => some StoreError.errServerExists)) :
          Store × List (Option StoreError)) := by
      simp only [createSeq, hcr, happ, hseq]
    rw [hstep]
    refine ⟨rfl, ?_, ?_⟩
    · simp
    · have hmzero : m.filter (fun x => x.ID == i) = [] := by
        rw [List.filter_eq_nil_iff]
        intro a ha
        unfold MemoryStore.getServer? at habs
        rw [List.find?_eq_none] at habs
        exact habs a ha
      simp [hmzero, hr'id]

/-- A second record carrying the same id "1" as `srvFs`. -/
def srvDup : Server :=
  ⟨"1", "filesystem-server", "", "2.0.0", "", "", [], true, "2024-02-01T00:00:00Z"⟩

/-- Witness for C2: creating two valid records with id "1" in the empty
store — the first succeeds, the second fails with `ErrServerExists`, one
record with id "1" remains. -/
theorem create_spec_witness :
    (createSeq [] (srvFs :: [srvDup]) "t").2 =
      none :: [srvDup].map (fun _ => some StoreError.errServerExists) ∧
    (createSeq [] (srvFs :: [srvDup]) "t").2.countP (fun e => e.isNone) = 1 ∧
    ((createSeq [] (srvFs :: [srvDup]) "t").1.filter (fun x => x.ID == "1")).length = 1 :=
  create_spec.2.2 [] "t" "1" srvFs [srvDup] (by decide) rfl

/-- Characterization: `isPrefB` decides "is an initial segment of". -/
theorem isPrefB_iff (pat l : List Char) :
    isPrefB pat l = true ↔ ∃ suf, l = pat ++ suf := by
  induction pat generalizing l with
  | nil => simp [isPrefB]
  | cons p ps ih =>
    cases l with
    | nil => simp [isPrefB]
    | cons c cs =>
      simp only [isPrefB, Bool.and_eq_true, beq_iff_eq]
      constructor
      · rintro ⟨hpc, hrest⟩
        obtain ⟨suf, hsuf⟩ := (ih cs).mp hrest
        exact ⟨suf, by simp [hpc, hsuf]⟩
      · rintro ⟨suf, hsuf⟩
        rw [List.cons_append] at hsuf
        obtain ⟨h1, h2⟩ := List.cons.inj hsuf
        exact ⟨h1.symm, (ih cs).mpr ⟨suf, h2⟩⟩

/-- Characterization: `subListB` decides "occurs contiguously inside". -/
theorem subListB_iff (pat l : List Char) :
    subListB pat l = true ↔ ∃ pre suf, l = pre ++ pat ++ suf := by
  induction l with
  | nil =>
    simp only [subListB, List.isEmpty_iff]
    constructor
    · intro h
      exact ⟨[], [], by simp [h]⟩
    · rintro ⟨pre, suf, h⟩
      rcases List.append_eq_nil.mp (List.append_eq_nil.mp h.symm).1 with ⟨_, hp⟩
      exact hp
  | cons c cs ih =>
    simp only [subListB, Bool.or_eq_true, isPrefB_iff, ih]
    constructor
    · rintro (⟨suf, hsuf⟩ | ⟨pre, suf, h⟩)
      · exact ⟨[], suf, by simp [hsuf]⟩
      · exact ⟨c :: pre, suf, by simp [h]⟩
    · rintro ⟨pre, suf, h⟩
      cases pre with
      | nil =>
        left
        exact ⟨suf, by simpa using h⟩
      | cons d pre' =>
        right
        have hcd : c = d ∧ cs = pre' ++ pat ++ suf := by simpa using h
        exact ⟨pre', suf, hcd.2⟩

/-- C4: `Search ""` returns the empty result set for every store state; for a
non-empty query `q`, `Search q` returns exactly those records whose
lowercased name has the lowercased query as a contiguous substring; over the
records named "filesystem-server", "web-server", "database-server",
"file-processor", the query "file" returns exactly the first and last, the
query "serv" returns exactly the first three, and matching is
case-insensitive ("FILE" returns the same records as "file"). -/
theorem search_spec (m : Store) (q : String) :
    MemoryStore.Search m "" = ([], none) ∧
    (q ≠ "" → ∀ r, r ∈ (MemoryStore.Search m q).1 ↔
      (r ∈ m ∧ ∃ pre suf, (lowerStr r.Name).toList = pre ++ (lowerStr q).toList ++ suf)) ∧
    (MemoryStore.Search searchSample "file").1.map Server.Name
        = ["filesystem-server", "file-processor"] ∧
    (MemoryStore.Search searchSample "serv").1.map Server.Name
        = ["filesystem-server", "web-server", "database-server"] ∧
    (MemoryStore.Search searchSample "FILE").1.map Server.Name
        = ["filesystem-server", "file-processor"] := by
  refine ⟨rfl, ?_, by decide, by decide, by decide⟩
  intro hq r
  unfold MemoryStore.Search
  rw [if_neg hq]
  rw [List.mem_filter]
  unfold strContains
  rw [subListB_iff]

/-- Witness for C4: "filesystem-server" is in the results of
`Search searchSample "file"` because "file" occurs in its name. -/
theorem search_spec_witness :
    srvFs ∈ (MemoryStore.Search searchSample "file").1 ↔
      (srvFs ∈ searchSample ∧
       ∃ pre suf, (lowerStr srvFs.Name).toList =
         pre ++ (lowerStr "file").toList ++ suf) :=
  (search_spec searchSample "file").2.1 (by decide) srvFs

/-- The implicit well-formedness predicate of C10: a record present in the
store has non-empty id, name and version. -/
def goodRecord (r : Server) : Prop := r.ID ≠ "" ∧ r.Name ≠ "" ∧ r.Version ≠ ""

/-- The implicit store invariant of C10. -/
def storeWF (m : Store) : Prop := ∀ r ∈ m, goodRecord r

/-- C10: every record present in the store has non-empty id, name and
version: the empty store satisfies this, and `Create`, `Update` and `Delete`
each preserve it (`Create`/`Update` validate before any mutation, `Delete`
only removes records). -/
theorem invariant_preserved :
    storeWF [] ∧
    (∀ m r now, storeWF m → storeWF (MemoryStore.Create m r now).1) ∧
    (∀ m r, storeWF m → storeWF (MemoryStore.Update m r).1) ∧
    (∀ m id, storeWF m → storeWF (MemoryStore.Delete m id).1) := by
  refine ⟨fun r hr => absurd hr (List.not_mem_nil r), ?_, ?_, ?_⟩
  · intro m r now hwf
    rcases hv : ValidateServer r with _ | es
    · have hgood : goodRecord r := (validateServer_none_iff r).mp hv
      rcases hex : MemoryStore.getServer? m r.ID with _ | ex
      · rw [create_absent m r now hv hex]
        intro x hx
        rcases MemoryStore.mem_setServer _ _ _ hx with hxm | hxr
        · exact hwf x hxm
        · subst hxr
          by_cases hc : r.CreatedAt = "" <;> simp [hc, goodRecord] <;> exact hgood
      · rw [create_present m r now hv (by rw [hex]; rfl)]
        exact hwf
    · unfold MemoryStore.Create
      rw [hv]
      exact hwf
  · intro m r hwf
    rcases hv : ValidateServer r with _ | es
    · rw [update_reduce m r hv]
      rcases hex : MemoryStore.getServer? m r.ID with _ | ex
      · exact hwf
      · have hgood : goodRecord r := (validateServer_none_iff r).mp hv
        intro x hx
        rcases MemoryStore.mem_setServer _ _ _ hx with hxm | hxr
        · exact hwf x hxm
        · subst hxr
          exact hgood
    · unfold MemoryStore.Update
      rw [hv]
      exact hwf
  · intro m id hwf
    unfold MemoryStore.Delete
    by_cases hid : id = ""
    · rw [if_pos hid]
      exact hwf
    · rw [if_neg hid]
      rcases hex : MemoryStore.getServer? m id with _ | ex
      · exact hwf
      · intro x hx
        exact hwf x (List.mem_filter.mp hx).1

/-- Witness for C10: the invariant carries from the empty store through a
`Create`. -/
theorem invariant_preserved_witness :
    storeWF (MemoryStore.Create [] srvFs "t").1 :=
  invariant_preserved.2.1 [] srvFs "t" invariant_preserved.1

/-- Models the recursion of `strings.Split(s, "/")`: accumulate characters
until each separator, emitting the accumulated chunk (in reverse). -/
def splitSlashAux : List Char → List Char → List (List Char)
  | [], acc => [acc.reverse]
  | ch :: rest, acc =>
    if ch == '/' then acc.reverse :: splitSlashAux rest []
    else splitSlashAux rest (ch :: acc)

/-- Models `strings.Split(repoURL, "/")` from the seed loader. -/
def splitSlash (s : String) : List String :=
  (splitSlashAux s.toList []).map String.mk

/-- Models `extractAuthorFromRepoURL` (seed loader): when the URL contains
"github.com/" and splits on "/" into at least four parts, returns
`parts[3]`; otherwise "Unknown". -/
def extractAuthorFromRepoURL (repoURL : String) : String :=
  if strContains repoURL "github.com/" then
    let parts := splitSlash repoURL
    if 4 ≤ parts.length then parts.getD 3 "" else "Unknown"
  else "Unknown"

/-- Everything after the first occurrence of `pat`, scanning left to right. -/
def dropThroughPat (pat : List Char) : List Char → List Char
  | [] => []
  | c :: cs =>
    if isPrefB pat (c :: cs) then (c :: cs).drop pat.length
    else dropThroughPat pat cs

/-- Modelled from the spec: the author is "the path segment immediately
following `github.com/` in the repository URL", with the fixed placeholder
"Unknown" when the URL lacks that substring. Used only to compare
`extractAuthorFromRepoURL` against the spec's reading. -/
def specAuthorOfRepoURL (repoURL : String) : String :=
  if strContains repoURL "github.com/" then
    String.mk
      ((dropThroughPat "github.com/".toList repoURL.toList).takeWhile
        (fun c => !(c == '/')))
  else "Unknown"

/-- C9 counterexample: on "github.com/alice/widgets/extra" the code returns
the fourth slash-separated component "extra", which is neither the path
segment "alice" immediately following "github.com/" nor the placeholder
"Unknown" — so the claimed equation fails at this input. -/
theorem extractAuthor_counterexample :
    extractAuthorFromRepoURL "github.com/alice/widgets/extra" = "extra" ∧
    specAuthorOfRepoURL "github.com/alice/widgets/extra" = "alice" ∧
    ¬ extractAuthorFromRepoURL "github.com/alice/widgets/extra" =
        specAuthorOfRepoURL "github.com/alice/widgets/extra" ∧
    ¬ extractAuthorFromRepoURL "github.com/alice/widgets/extra" = "Unknown" := by
  refine ⟨rfl, rfl, ?_, ?_⟩ <;> decide

/-- Splitting a slash-free chunk followed by a separator emits the chunk. -/
theorem splitSlashAux_append_noSlash (xs : List Char) (ys : List Char)
    (acc : List Char) (h : ∀ c ∈ xs, ¬ c = '/') :
    splitSlashAux (xs ++ '/' :: ys) acc = (acc.reverse ++ xs) :: splitSlashAux ys [] := by
  induction xs generalizing acc with
  | nil => simp [splitSlashAux]
  | cons c xs' ih =>
    have hcb : (c == '/') = false := by
      simpa using h c (List.mem_cons_self c xs')
    simp only [List.cons_append, splitSlashAux, hcb, Bool.false_eq_true, if_false,
      List.append_eq]
    rw [ih (c :: acc) (fun d hd => h d (List.mem_cons_of_mem c hd))]
    simp

/-- Taking while not-slash over a slash-free chunk followed by a separator
yields the chunk. -/
theorem takeWhile_noSlash (xs ys : List Char) (h : ∀ c ∈ xs, ¬ c = '/') :
    ((xs ++ '/' :: ys).takeWhile (fun c => !(c == '/'))) = xs := by
  induction xs with
  | nil => simp [List.takeWhile]
  | cons c xs' ih =>
    have hcb : (c == '/') = false := by
      simpa using h c (List.mem_cons_self c xs')
    simp only [List.cons_append, List.takeWhile, hcb, Bool.not_false, List.append_eq]
    rw [ih (fun d hd => h d (List.mem_cons_of_mem c hd))]

/-- C9 amended: `extractAuthorFromRepoURL` returns the fourth
slash-separated component of the URL when the URL contains "github.com/"
and splits into at least four components, and "Unknown" otherwise; on URLs
of the canonical shape `https://github.com/<author>/<rest>` with a
slash-free `<author>` this agrees with the spec's reading — both the code
and the spec-modelled `specAuthorOfRepoURL` return `<author>`. -/
theorem extractAuthor_amended :
    (∀ url, extractAuthorFromRepoURL url =
      if strContains url "github.com/" = true ∧ 4 ≤ (splitSlash url).length
      then (splitSlash url).getD 3 "" else "Unknown") ∧
    (∀ author rest : String, (∀ c ∈ author.toList, ¬ c = '/') →
      extractAuthorFromRepoURL ("https://github.com/" ++ (author ++ ("/" ++ rest)))
          = author ∧
      specAuthorOfRepoURL ("https://github.com/" ++ (author ++ ("/" ++ rest)))
          = author) := by
  constructor
  · intro url
    unfold extractAuthorFromRepoURL
    by_cases h1 : strContains url "github.com/" = true
    · rw [if_pos h1]
      by_cases h2 : 4 ≤ (splitSlash url).length
      · rw [if_pos h2, if_pos ⟨h1, h2⟩]
      · rw [if_neg h2, if_neg (fun hc => h2 hc.2)]
    · rw [if_neg h1, if_neg (fun hc => h1 hc.1)]
  · intro author rest h
    have hcontains :
        strContains ("https://github.com/" ++ (author ++ ("/" ++ rest)))
          "github.com/" = true := rfl
    have hsplit0 :
        splitSlashAux (("https://github.com/" ++ (author ++ ("/" ++ rest))).toList) [] =
          "https:".toList :: [] :: "github.com".toList ::
            splitSlashAux (author.toList ++ '/' :: rest.toList) [] := rfl
    have hsplit1 :
        splitSlashAux (author.toList ++ '/' :: rest.toList) [] =
          author.toList :: splitSlashAux rest.toList [] := by
      rw [splitSlashAux_append_noSlash author.toList rest.toList [] h]
      simp
    have hsplit :
        splitSlash ("https://github.com/" ++ (author ++ ("/" ++ rest))) =
          "https:" :: "" :: "github.com" :: author ::
            (splitSlashAux rest.toList []).map String.mk := by
      unfold splitSlash
      rw [hsplit0, hsplit1]
      rfl
    constructor
    · unfold extractAuthorFromRepoURL
      rw [if_pos hcontains, hsplit]
      have hlen : 4 ≤ ("https:" :: "" :: "github.com" :: author ::
          (splitSlashAux rest.toList []).map String.mk).length := by
        simp
      rw [if_pos hlen]
      rfl
    · unfold specAuthorOfRepoURL
      rw [if_pos hcontains]
      have hdrop :
          dropThroughPat "github.com/".toList
              (("https://github.com/" ++ (author ++ ("/" ++ rest))).toList) =
            author.toList ++ '/' :: rest.toList := rfl
      rw [hdrop, takeWhile_noSlash author.toList rest.toList h]
      rfl

/-- Witness for C9's amended theorem at author "alice". -/
theorem extractAuthor_amended_witness :
    extractAuthorFromRepoURL ("https://github.com/" ++ ("alice" ++ ("/" ++ "widgets")))
        = "alice" ∧
    specAuthorOfRepoURL ("https://github.com/" ++ ("alice" ++ ("/" ++ "widgets")))
        = "alice" :=
  extractAuthor_amended.2 "alice" "widgets" (by decide)

/-- Models the memory layout of a stored `models.Server` relevant to C7: the
Go struct value holds a slice header for `Tags`, here the address `tagsRef`
of the backing array; copying the struct (`serverCopy := server` in
`GetByID`, or `append` in `GetAll`) copies the header but shares the backing
array. -/
structure HServer where
  ID : String
  tagsRef : Nat
  deriving Repr, DecidableEq

/-- Models the process heap holding the tag backing arrays, indexed by
address. -/
abbrev TagHeap := List (List String)

/-- The tag contents a record exhibits under a given heap. -/
def heapTags (h : TagHeap) (addr : Nat) : List String := h.getD addr []

/-- Models `GetByID`'s happy path under the memory layout: the returned
struct is a copy, but its `tagsRef` is the same address the stored struct
holds. -/
def hGetByID (m : List HServer) (id : String) : Option HServer :=
  m.find? (fun r => r.ID == id)

/-- Models the caller's in-place mutation `rec.Tags[idx] = v` on a record it
received: a write through the shared backing array. -/
def setTagElem (h : TagHeap) (addr idx : Nat) (v : String) : TagHeap :=
  h.set addr ((h.getD addr []).set idx v)

/-- C7 exhibit: one record with id "1" whose tags array (["files"]) lives at
heap address 0. `GetByID "1"` returns a struct copy sharing `tagsRef = 0`;
the caller's write `rec.Tags[0] = "evil"` goes through that shared address,
after which the record a subsequent `GetByID "1"` returns exhibits tags
["evil"], not ["files"] — mutating the returned value changed what the
store returns, contradicting the claimed copy-on-read isolation (and the
code's own "Return a copy to prevent external modification" comment). -/
theorem getByID_tags_aliasing :
    hGetByID [⟨"1", 0⟩] "1" = some ⟨"1", 0⟩ ∧
    heapTags [["files"]] 0 = ["files"] ∧
    heapTags (setTagElem [["files"]] 0 0 "evil") 0 = ["evil"] ∧
    ¬ heapTags (setTagElem [["files"]] 0 0 "evil") 0 = ["files"] := by
  refine ⟨rfl, rfl, rfl, ?_⟩
  decide
